import Mathlib

/-!
Verification of the torrent-bot conversation core (src/bot.py).

The Python source is shallowly embedded: strings are lists of characters,
the regular expression MAGNET_PATTERN and its findall loop become an
explicit scanner, the Transmission RPC client becomes an environment record
whose RPC calls are oracles that either return a value or raise, and the
two Telegram handlers become pure state transformers on the per-conversation
slot context.user_data holding the stored magnet link.
-/

namespace TorrentBot

/-- Whitespace test mirroring the character class of the regex
MAGNET_PATTERN = re.compile(r'magnet:\?[^\s]+') at src/bot.py:60.
Covers the ASCII and Unicode whitespace characters recognised by the
Python regex engine for str patterns. -/
def isPySpace (c : Char) : Bool :=
  c.toNat = 0x20 || c.toNat = 0x09 || c.toNat = 0x0a || c.toNat = 0x0d ||
  c.toNat = 0x0b || c.toNat = 0x0c || c.toNat = 0x1c || c.toNat = 0x1d ||
  c.toNat = 0x1e || c.toNat = 0x1f || c.toNat = 0x85 || c.toNat = 0xa0 ||
  c.toNat = 0x1680 || (0x2000 <= c.toNat && c.toNat <= 0x200a) ||
  c.toNat = 0x2028 || c.toNat = 0x2029 || c.toNat = 0x202f ||
  c.toNat = 0x205f || c.toNat = 0x3000

/-- The literal part of MAGNET_PATTERN (src/bot.py:60): the characters
m a g n e t : ? that every match must start with. -/
def magnetLit : List Char := ['m', 'a', 'g', 'n', 'e', 't', ':', '?']

/-- Attempt to strip a literal from the front of a character list; models a
regex engine matching a fixed literal at the current position. -/
def dropLit : List Char → List Char → Option (List Char)
  | [], s => some s
  | _ :: _, [] => none
  | p :: ps, c :: cs => if c = p then dropLit ps cs else none

/-- The greedy match of the subpattern [^\s]+ at the current position:
the maximal run of non-whitespace characters, together with the rest. -/
def spanNonWs : List Char → List Char × List Char
  | [] => ([], [])
  | c :: cs =>
    if isPySpace c then ([], c :: cs)
    else
      let p := spanNonWs cs
      (c :: p.1, p.2)

theorem dropLit_some (p : List Char) : ∀ s t : List Char,
    dropLit p s = some t → s = p ++ t := by
  induction p with
  | nil => intro s t h; simpa [dropLit] using h
  | cons a ps ih =>
    intro s t h
    cases s with
    | nil => simp [dropLit] at h
    | cons c cs =>
      simp only [dropLit] at h
      by_cases hc : c = a
      · simp only [hc, if_pos rfl] at h
        simpa [hc] using congrArg (a :: ·) (ih cs t h)
      · simp [hc] at h

theorem dropLit_append (p t : List Char) : dropLit p (p ++ t) = some t := by
  induction p with
  | nil => rfl
  | cons a ps ih => simp [dropLit, ih]

theorem dropLit_some_length {p s t : List Char} (h : dropLit p s = some t) :
    s.length = p.length + t.length := by
  have hs := dropLit_some p s t h
  subst hs
  simp

theorem spanNonWs_length (s : List Char) :
    (spanNonWs s).1.length + (spanNonWs s).2.length = s.length := by
  induction s with
  | nil => rfl
  | cons c cs ih =>
    by_cases h : isPySpace c
    · simp [spanNonWs, h]
    · simp only [spanNonWs, h, Bool.false_eq_true, if_false, List.length_cons]
      omega

/-- Embedding of extract_magnet_links (src/bot.py:295-297), i.e. of
MAGNET_PATTERN.findall(message_text): scan left to right; at each position
try to match the literal magnet:? followed by a greedy nonempty run of
non-whitespace characters; on success emit the match and resume after it,
otherwise advance one character. Matches re.findall: non-overlapping,
leftmost, greedy. A pure function with no side effects. -/
def extract_magnet_links (s : List Char) : List (List Char) :=
  match s with
  | [] => []
  | c :: rest =>
    match h : dropLit magnetLit (c :: rest) with
    | some after =>
      if hr : (spanNonWs after).1 = [] then extract_magnet_links rest
      else
        (magnetLit ++ (spanNonWs after).1) :: extract_magnet_links (spanNonWs after).2
    | none => extract_magnet_links rest
termination_by s.length
decreasing_by
  · simp
  · have h1 := dropLit_some_length h
    have h2 := spanNonWs_length after
    simp only [magnetLit, List.length_cons] at h1 ⊢
    omega
  · simp

theorem extract_nil : extract_magnet_links [] = [] := by
  rw [extract_magnet_links]

theorem extract_cons_none (c : Char) (rest : List Char)
    (h : dropLit magnetLit (c :: rest) = none) :
    extract_magnet_links (c :: rest) = extract_magnet_links rest := by
  rw [extract_magnet_links]
  split
  · next after heq => rw [h] at heq; cases heq
  · rfl

theorem extract_cons_empty_run (c : Char) (rest after : List Char)
    (h : dropLit magnetLit (c :: rest) = some after)
    (hr : (spanNonWs after).1 = []) :
    extract_magnet_links (c :: rest) = extract_magnet_links rest := by
  rw [extract_magnet_links]
  split
  · next a heq =>
    rw [h] at heq
    cases heq
    rw [dif_pos hr]
  · next heq => rw [h] at heq

theorem extract_cons_match (c : Char) (rest after : List Char)
    (h : dropLit magnetLit (c :: rest) = some after)
    (hr : (spanNonWs after).1 ≠ []) :
    extract_magnet_links (c :: rest) =
      (magnetLit ++ (spanNonWs after).1) ::
        extract_magnet_links (spanNonWs after).2 := by
  rw [extract_magnet_links]
  split
  · next a heq =>
    rw [h] at heq
    cases heq
    rw [dif_neg hr]
  · next heq => rw [h] at heq; cases heq

theorem isPySpace_m : isPySpace 'm' = false := by decide

theorem not_m_skip {c : Char} (hc : c ≠ 'm') (rest : List Char) :
    extract_magnet_links (c :: rest) = extract_magnet_links rest := by
  apply extract_cons_none
  simp [magnetLit, dropLit, hc]

theorem ws_skip {c : Char} (hc : isPySpace c = true) (rest : List Char) :
    extract_magnet_links (c :: rest) = extract_magnet_links rest := by
  apply not_m_skip
  intro hm
  subst hm
  rw [isPySpace_m] at hc
  cases hc

theorem ws_block_skip {g : List Char} (hg : ∀ c ∈ g, isPySpace c = true)
    (s : List Char) :
    extract_magnet_links (g ++ s) = extract_magnet_links s := by
  induction g with
  | nil => rfl
  | cons c cs ih =>
    have hc : isPySpace c = true := hg c (by simp)
    rw [List.cons_append, ws_skip hc]
    exact ih fun x hx => hg x (by simp [hx])

theorem ws_only_extract {g : List Char} (hg : ∀ c ∈ g, isPySpace c = true) :
    extract_magnet_links g = [] := by
  have h := ws_block_skip hg []
  rw [List.append_nil] at h
  rw [h, extract_nil]

theorem spanNonWs_split {t : List Char} (ht : ∀ c ∈ t, isPySpace c = false)
    {rest : List Char}
    (hrest : rest = [] ∨ ∃ c r, rest = c :: r ∧ isPySpace c = true) :
    spanNonWs (t ++ rest) = (t, rest) := by
  induction t with
  | nil =>
    rcases hrest with h | ⟨c, r, hrr, hc⟩
    · subst h; rfl
    · subst hrr; simp [spanNonWs, hc]
  | cons a ts ih =>
    have ha : isPySpace a = false := ht a (by simp)
    have := ih (fun x hx => ht x (by simp [hx]))
    simp [spanNonWs, ha, this]

theorem match_step {t : List Char} (htne : t ≠ [])
    (ht : ∀ c ∈ t, isPySpace c = false) {rest : List Char}
    (hrest : rest = [] ∨ ∃ c r, rest = c :: r ∧ isPySpace c = true) :
    extract_magnet_links (magnetLit ++ (t ++ rest)) =
      (magnetLit ++ t) :: extract_magnet_links rest := by
  have hspan := spanNonWs_split ht hrest
  have hdrop : dropLit magnetLit (magnetLit ++ (t ++ rest)) = some (t ++ rest) :=
    dropLit_append magnetLit (t ++ rest)
  have hshape : magnetLit ++ (t ++ rest) =
      'm' :: (['a', 'g', 'n', 'e', 't', ':', '?'] ++ (t ++ rest)) := by
    simp [magnetLit]
  rw [hshape] at hdrop ⊢
  rw [extract_cons_match 'm' _ _ hdrop (by rw [hspan]; exact htne), hspan]

/-- Builds a text out of whitespace gaps and magnet tokens: each pair
(g, t) contributes the gap g followed by the token magnet:? ++ t, and
trail is trailing whitespace. This describes the inputs of the claim:
N magnet tokens separated by whitespace. -/
def assemble : List (List Char × List Char) → List Char → List Char
  | [], trail => trail
  | (g, t) :: rest, trail => g ++ ((magnetLit ++ t) ++ assemble rest trail)

theorem assemble_head_ws (l : List (List Char × List Char)) (trail : List Char)
    (hg : ∀ p ∈ l, (∀ c ∈ p.1, isPySpace c = true) ∧ p.1 ≠ [])
    (htr : ∀ c ∈ trail, isPySpace c = true) :
    assemble l trail = [] ∨
      ∃ c r, assemble l trail = c :: r ∧ isPySpace c = true := by
  cases l with
  | nil =>
    cases trail with
    | nil => exact Or.inl rfl
    | cons c r => exact Or.inr ⟨c, r, rfl, htr c (by simp)⟩
  | cons p rest =>
    obtain ⟨hws, hne⟩ := hg p (by simp)
    cases hp : p.1 with
    | nil => exact absurd hp hne
    | cons c r =>
      refine Or.inr ⟨c, r ++ ((magnetLit ++ p.2) ++ assemble rest trail), ?_, ?_⟩
      · obtain ⟨g, t⟩ := p
        simp only at hp
        simp [assemble, hp]
      · exact hws c (by simp [hp])

theorem extract_assemble (l : List (List Char × List Char)) :
    ∀ trail : List Char,
    (∀ p ∈ l, ∀ c ∈ p.1, isPySpace c = true) →
    (∀ p ∈ l, p.2 ≠ [] ∧ ∀ c ∈ p.2, isPySpace c = false) →
    (∀ p ∈ l.tail, p.1 ≠ []) →
    (∀ c ∈ trail, isPySpace c = true) →
    extract_magnet_links (assemble l trail) =
      l.map (fun p => magnetLit ++ p.2) := by
  induction l with
  | nil =>
    intro trail _ _ _ htr
    exact ws_only_extract htr
  | cons p rest ih =>
    intro trail hg ht hsep htr
    obtain ⟨g, t⟩ := p
    have hgws : ∀ c ∈ g, isPySpace c = true := hg (g, t) (by simp)
    have htne : t ≠ [] := (ht (g, t) (by simp)).1
    have htnws : ∀ c ∈ t, isPySpace c = false := (ht (g, t) (by simp)).2
    have hresthead : assemble rest trail = [] ∨
        ∃ c r, assemble rest trail = c :: r ∧ isPySpace c = true := by
      apply assemble_head_ws rest trail ?_ htr
      intro q hq
      refine ⟨hg q (by simp [hq]), hsep q ?_⟩
      simpa using hq
    rw [assemble, ws_block_skip hgws, List.append_assoc,
      match_step htne htnws hresthead]
    have hrest := ih trail
      (fun q hq => hg q (by simp [hq]))
      (fun q hq => ht q (by simp [hq]))
      (fun q hq => hsep q (List.tail_subset rest hq))
      htr
    rw [hrest, List.map_cons]

theorem spanNonWs_fst_ne {s : List Char} (h : (spanNonWs s).1 ≠ []) :
    ∃ c r, s = c :: r ∧ isPySpace c = false := by
  cases s with
  | nil => simp [spanNonWs] at h
  | cons c r =>
    by_cases hc : isPySpace c
    · simp [spanNonWs, hc] at h
    · exact ⟨c, r, rfl, by simpa using hc⟩

/-- A magnet token occurs in s: somewhere in s the literal magnet:? appears
immediately followed by a non-whitespace character. -/
def HasMagnetToken (s : List Char) : Prop :=
  ∃ a c d, s = a ++ magnetLit ++ c :: d ∧ isPySpace c = false

theorem extract_empty_of_no_token :
    ∀ s : List Char, ¬ HasMagnetToken s → extract_magnet_links s = [] := by
  intro s
  induction s with
  | nil => intro _; exact extract_nil
  | cons x rest ih =>
    intro hno
    have hrest : ¬ HasMagnetToken rest := by
      intro ⟨a, c, d, hdec, hc⟩
      exact hno ⟨x :: a, c, d, by simp [hdec], hc⟩
    cases hdl : dropLit magnetLit (x :: rest) with
    | none => rw [extract_cons_none x rest hdl]; exact ih hrest
    | some after =>
      by_cases hr : (spanNonWs after).1 = []
      · rw [extract_cons_empty_run x rest after hdl hr]; exact ih hrest
      · obtain ⟨c, r, hafter, hc⟩ := spanNonWs_fst_ne hr
        have hs := dropLit_some magnetLit (x :: rest) after hdl
        exact absurd ⟨[], c, r, by rw [hs, hafter]; rfl, hc⟩ hno

theorem extract_mem_start_aux :
    ∀ n, ∀ s : List Char, s.length ≤ n →
      ∀ m ∈ extract_magnet_links s, magnetLit <+: m := by
  intro n
  induction n with
  | zero =>
    intro s hs m hm
    rw [List.length_eq_zero.mp (Nat.le_zero.mp hs)] at hm
    rw [extract_nil] at hm
    cases hm
  | succ n ih =>
    intro s hs m hm
    cases s with
    | nil => rw [extract_nil] at hm; cases hm
    | cons x rest =>
      cases hdl : dropLit magnetLit (x :: rest) with
      | none =>
        rw [extract_cons_none x rest hdl] at hm
        exact ih rest (by simp at hs; omega) m hm
      | some after =>
        have hlen := dropLit_some_length hdl
        have hspanlen := spanNonWs_length after
        by_cases hr : (spanNonWs after).1 = []
        · rw [extract_cons_empty_run x rest after hdl hr] at hm
          exact ih rest (by simp at hs; omega) m hm
        · rw [extract_cons_match x rest after hdl hr] at hm
          cases hm with
          | head => exact List.prefix_append magnetLit (spanNonWs after).1
          | tail _ hm =>
            refine ih (spanNonWs after).2 ?_ m hm
            simp only [magnetLit, List.length_cons] at hlen
            simp only [List.length_cons] at hs
            omega

theorem extract_mem_start (s : List Char) :
    ∀ m ∈ extract_magnet_links s, magnetLit <+: m :=
  extract_mem_start_aux s.length s (Nat.le_refl _)

/-- Outcome of a call into the transmission_rpc library: a value, or an
exception carrying str(e). -/
inductive RpcResult (α : Type) where
  | ok (val : α)
  | exn (msg : List Char)
deriving DecidableEq

/-- The fields of the Transmission session object the program reads. -/
structure RpcSession where
  version : List Char
  download_dir : List Char
deriving DecidableEq

/-- The field of a Transmission torrent object the program reads. -/
structure RpcTorrent where
  name : List Char
deriving DecidableEq

/-- Environment for the TransmissionClient wrapper (src/bot.py:183-241):
whether self.client is set (non-None), and oracles for the outcome of each
RPC call the wrapper makes. -/
structure TransmissionEnv where
  clientInitialized : Bool
  getSession : RpcResult RpcSession
  getTorrents : RpcResult (List RpcTorrent)
  addTorrent : List Char → List Char → RpcResult RpcTorrent

/-- DEFAULT_DOWNLOAD_DIRS (src/bot.py:50-57), an insertion-ordered dict
embedded as an association list of label/path pairs. -/
def DEFAULT_DOWNLOAD_DIRS : List (List Char × List Char) :=
  [("🎬 Movies".toList, "/downloads/complete/movies".toList),
   ("📺 TV Shows".toList, "/downloads/complete/tvseries".toList),
   ("📚 Books".toList, "/downloads/complete/books".toList),
   ("🎮 Games".toList, "/downloads/complete/games".toList),
   ("📁 Other".toList, "/downloads/complete/soft".toList),
   ("📖 Courses".toList, "/downloads/complete/courses".toList)]

/-- Embedding of TransmissionClient.get_download_dirs (src/bot.py:208-227):
without a client, return the defaults; otherwise call get_session (which may
raise, caught and answered with the defaults), read its download_dir without
using it, and rebuild the default label/path mapping entry by entry. -/
def get_download_dirs (env : TransmissionEnv) : List (List Char × List Char) :=
  if env.clientInitialized = false then DEFAULT_DOWNLOAD_DIRS
  else
    match env.getSession with
    | RpcResult.exn _ => DEFAULT_DOWNLOAD_DIRS
    | RpcResult.ok session =>
      let _download_dir := session.download_dir
      DEFAULT_DOWNLOAD_DIRS.foldl (fun dirs lp => dirs ++ [(lp.1, lp.2)]) []

/-- Embedding of TransmissionClient.add_torrent (src/bot.py:229-241):
false without a client, false when the RPC raises, true once the daemon
returned a torrent object. Total, so it never raises past this boundary. -/
def add_torrent (env : TransmissionEnv) (magnet_url download_dir : List Char) :
    Bool :=
  if env.clientInitialized = false then false
  else
    match env.addTorrent magnet_url download_dir with
    | RpcResult.ok _ => true
    | RpcResult.exn _ => false

/-- The status dict built by get_transmission_status (src/bot.py:79-102). -/
structure TransmissionStatus where
  connected : Bool
  error : Option (List Char)
  version : Option (List Char)
  download_dir : Option (List Char)
  active_torrents : Nat
deriving DecidableEq

/-- Embedding of get_transmission_status (src/bot.py:79-102): the status
dict starts all-false/None; with a client the session and torrent list are
fetched and, only if both calls return, the connected fields are filled in;
any exception is caught and stored as the error field; without a client a
fixed error text is stored. Total, so it never raises. -/
def get_transmission_status (env : TransmissionEnv) : TransmissionStatus :=
  let base : TransmissionStatus :=
    { connected := false, error := none, version := none,
      download_dir := none, active_torrents := 0 }
  if env.clientInitialized then
    match env.getSession with
    | RpcResult.exn e => { base with error := some e }
    | RpcResult.ok session =>
      match env.getTorrents with
      | RpcResult.exn e => { base with error := some e }
      | RpcResult.ok torrents =>
        { connected := true, error := none, version := some session.version,
          download_dir := some session.download_dir,
          active_torrents := torrents.length }
  else { base with error := some "Transmission client not initialized".toList }

/-- Python str.startswith for character lists. -/
def startsWith (p s : List Char) : Bool :=
  (dropLit p s).isSome

/-- Python str.replace for character lists, for a nonempty pattern: scan
left to right, replacing each non-overlapping occurrence of pat by repl
(an empty pattern is answered by the unchanged string; the program only
ever replaces the nonempty literal download:). -/
def pyReplace (pat repl : List Char) (s : List Char) : List Char :=
  match s with
  | [] => []
  | c :: rest =>
    if hp : pat = [] then c :: rest
    else
      match h : dropLit pat (c :: rest) with
      | some after => repl ++ pyReplace pat repl after
      | none => c :: pyReplace pat repl rest
termination_by s.length
decreasing_by
  · have h1 := dropLit_some_length h
    have h2 : pat.length ≠ 0 := fun hz => hp (List.length_eq_zero.mp hz)
    simp only [List.length_cons] at h1 ⊢
    omega
  · simp

/-- The action tag download: prefixed to every callback payload by
handle_message (src/bot.py:324) and stripped again by handle_callback
(src/bot.py:345). -/
def downloadTag : List Char := "download:".toList

/-- Encoding of a destination path into a callback payload, as in
InlineKeyboardButton(label, callback_data=f"download:\x7bpath\x7d")
at src/bot.py:324. -/
def encodePayload (path : List Char) : List Char := downloadTag ++ path

/-- Decoding of a callback payload back into a destination path, as in
query.data.replace("download:", "") at src/bot.py:345. -/
def decodePayload (data : List Char) : List Char := pyReplace downloadTag [] data

/-- One inline keyboard button: a label and its callback payload. -/
structure Button where
  label : List Char
  callback_data : List Char
deriving DecidableEq

/-- The observable reply of a handler invocation, abstracting the reply
texts of src/bot.py; chooseLocation carries the inline keyboard. -/
inductive Reply where
  | noMagnetFound
  | chooseLocation (keyboard : List Button)
  | invalidSelection
  | noMagnetCallback
  | addSuccess (download_path : List Char)
  | addFailure
deriving DecidableEq

/-- Embedding of handle_message (src/bot.py:300-332) for one conversation:
takes the stored magnet link slot (context.user_data) and the message text,
returns the new slot value and the reply. With no extracted link the slot
is untouched and a guidance reply is sent; otherwise the first link
overwrites the slot and the reply carries one button per download
directory, in order, each encoding its path. -/
def handle_message (env : TransmissionEnv) (pending : Option (List Char))
    (message_text : List Char) : Option (List Char) × Reply :=
  let magnet_links := extract_magnet_links message_text
  match magnet_links with
  | [] => (pending, Reply.noMagnetFound)
  | magnet_link :: _ =>
    let download_dirs := get_download_dirs env
    let keyboard := download_dirs.map fun lp => Button.mk lp.1 (encodePayload lp.2)
    (some magnet_link, Reply.chooseLocation keyboard)

/-- Embedding of handle_callback (src/bot.py:335-372) for one conversation:
takes the stored magnet link slot and the callback payload, returns the new
slot value, the reply, and the list of add_torrent calls made (magnet link
and destination path of each call). -/
def handle_callback (env : TransmissionEnv) (pending : Option (List Char))
    (data : List Char) :
    Option (List Char) × Reply × List (List Char × List Char) :=
  if startsWith downloadTag data = false then
    (pending, Reply.invalidSelection, [])
  else
    let download_path := decodePayload data
    match pending with
    | none => (none, Reply.noMagnetCallback, [])
    | some magnet_link =>
      let success := add_torrent env magnet_link download_path
      (none,
       if success then Reply.addSuccess download_path else Reply.addFailure,
       [(magnet_link, download_path)])

/-- HTTP status of a response of telegram_webhook_handler. -/
inductive HttpStatus where
  | ok200
  | unauthorized401
  | error500
deriving DecidableEq

/-- Python truthiness of an optional string: os.getenv gives none when the
variable is unset, and an empty string is falsy. -/
def pyTruthy : Option (List Char) → Bool
  | none => false
  | some s => !s.isEmpty

/-- Embedding of telegram_webhook_handler (src/bot.py:375-398).
Arguments: the configured WEBHOOK_SECRET_TOKEN, the value of the
X-Telegram-Bot-Api-Secret-Token request header (none when absent), and
oracles for whether the body parses as an update and whether
application.process_update returns without raising. Result: the HTTP
status and the number of times the update was handed to the controller
(application.process_update invocations). -/
def telegram_webhook_handler (secretToken header : Option (List Char))
    (parseOk processOk : Bool) : HttpStatus × Nat :=
  if pyTruthy secretToken && !(header == secretToken) then
    (HttpStatus.unauthorized401, 0)
  else if parseOk = false then (HttpStatus.error500, 0)
  else if processOk then (HttpStatus.ok200, 1)
  else (HttpStatus.error500, 1)

theorem pyReplace_nil (pat repl : List Char) : pyReplace pat repl [] = [] := by
  rw [pyReplace]

theorem pyReplace_cons_none (pat repl : List Char) (c : Char) (rest : List Char)
    (h : dropLit pat (c :: rest) = none) :
    pyReplace pat repl (c :: rest) = c :: pyReplace pat repl rest := by
  have hp : pat ≠ [] := by
    intro he
    subst he
    simp [dropLit] at h
  rw [pyReplace]
  rw [dif_neg hp]
  split
  · next heq => rw [h] at heq; cases heq
  · rfl

theorem pyReplace_cons_some (pat repl : List Char) (c : Char)
    (rest after : List Char) (hp : pat ≠ [])
    (h : dropLit pat (c :: rest) = some after) :
    pyReplace pat repl (c :: rest) = repl ++ pyReplace pat repl after := by
  rw [pyReplace]
  rw [dif_neg hp]
  split
  · next a heq =>
    rw [h] at heq
    cases heq
    rfl
  · next heq => rw [h] at heq; cases heq

/-- s contains an occurrence of pat as a contiguous substring. -/
def hasSub (pat : List Char) : List Char → Bool
  | [] => pat.isEmpty
  | c :: rest => startsWith pat (c :: rest) || hasSub pat rest

theorem dropLit_none_of_not_startsWith {pat s : List Char}
    (h : startsWith pat s = false) : dropLit pat s = none := by
  unfold startsWith at h
  cases hd : dropLit pat s with
  | none => rfl
  | some a => rw [hd] at h; simp at h

theorem pyReplace_no_occurrence (pat repl : List Char) :
    ∀ s : List Char, hasSub pat s = false → pyReplace pat repl s = s := by
  intro s
  induction s with
  | nil => intro _; exact pyReplace_nil pat repl
  | cons c rest ih =>
    intro h
    simp only [hasSub, Bool.or_eq_false_iff] at h
    rw [pyReplace_cons_none pat repl c rest
      (dropLit_none_of_not_startsWith h.1)]
    rw [ih h.2]

/-- The Destination Catalog returned by get_download_dirs is the default
catalog in every connection state: the not-initialized branch and the
exception branch return it directly, and the connected branch rebuilds it
entry by entry. -/
theorem get_download_dirs_const (env : TransmissionEnv) :
    get_download_dirs env = DEFAULT_DOWNLOAD_DIRS := by
  unfold get_download_dirs
  cases hc : env.clientInitialized
  · rfl
  · cases hs : env.getSession
    · simp only [Bool.true_eq_false, if_false]
      rfl
    · simp only [Bool.true_eq_false, if_false]

/-- A concrete environment in which _connect failed (self.client is None);
used to exercise the theorems at explicit inputs. -/
def envDisconnected : TransmissionEnv :=
  { clientInitialized := false
    getSession := RpcResult.exn []
    getTorrents := RpcResult.exn []
    addTorrent := fun _ _ => RpcResult.exn [] }

/-- C1: extract_magnet_links returns the empty list on every text with no
magnet:? token followed by a non-whitespace character; on a text made of N
whitespace-separated magnet tokens it returns exactly those N substrings in
left-to-right order, verbatim duplicates included; and every returned
substring starts with magnet:?. The embedding is a pure function, so there
are no side effects. -/
theorem extract_magnet_links_correct :
    (∀ s : List Char, ¬ HasMagnetToken s → extract_magnet_links s = []) ∧
    (∀ (l : List (List Char × List Char)) (trail : List Char),
      (∀ p ∈ l, ∀ c ∈ p.1, isPySpace c = true) →
      (∀ p ∈ l, p.2 ≠ [] ∧ ∀ c ∈ p.2, isPySpace c = false) →
      (∀ p ∈ l.tail, p.1 ≠ []) →
      (∀ c ∈ trail, isPySpace c = true) →
      extract_magnet_links (assemble l trail) =
        l.map (fun p => magnetLit ++ p.2)) ∧
    (∀ s : List Char, ∀ m ∈ extract_magnet_links s, magnetLit <+: m) :=
  ⟨extract_empty_of_no_token, extract_assemble, extract_mem_start⟩

/-- C1 witness: two whitespace-separated copies of the token magnet:?ab
are extracted in order, duplicates preserved. -/
theorem extract_magnet_links_correct_witness :
    extract_magnet_links
        (assemble [([' '], ['a', 'b']), ([' '], ['a', 'b'])] [' ']) =
      [([' '], ['a', 'b']), ([' '], ['a', 'b'])].map
        (fun p => magnetLit ++ p.2) :=
  extract_magnet_links_correct.2.1
    [([' '], ['a', 'b']), ([' '], ['a', 'b'])] [' ']
    (by decide) (by decide) (by decide) (by decide)

/-- C2: when at least one magnet link is extracted from the text, the
handler stores the first extracted link, overwriting whatever the slot held
before (the slot argument pending is arbitrary), and replies with exactly
one button per Destination Catalog entry, in catalog order, each encoding
that entry's path behind the download: tag. -/
theorem handle_message_stores_first_and_offers_catalog
    (env : TransmissionEnv) (pending : Option (List Char))
    (text l : List Char) (ls : List (List Char))
    (h : extract_magnet_links text = l :: ls) :
    handle_message env pending text =
      (some l, Reply.chooseLocation
        (DEFAULT_DOWNLOAD_DIRS.map fun lp =>
          Button.mk lp.1 (encodePayload lp.2))) := by
  unfold handle_message
  rw [h, get_download_dirs_const]

/-- C2 witness: a message that is exactly one magnet token overwrites a
previously stored link and yields the catalog keyboard. -/
theorem handle_message_witness :
    handle_message envDisconnected (some ['o']) (magnetLit ++ ['x']) =
      (some (magnetLit ++ ['x']), Reply.chooseLocation
        (DEFAULT_DOWNLOAD_DIRS.map fun lp =>
          Button.mk lp.1 (encodePayload lp.2))) := by
  have h : extract_magnet_links (magnetLit ++ ['x']) = [magnetLit ++ ['x']] := by
    have h2 := match_step (t := ['x']) (by decide) (by decide) (Or.inl rfl)
    simpa [extract_nil] using h2
  exact handle_message_stores_first_and_offers_catalog envDisconnected
    (some ['o']) (magnetLit ++ ['x']) (magnetLit ++ ['x']) [] h

/-- C3: the pending-selection read is destructive. Resolving one valid
selection (whatever the submit outcome, i.e. for every environment) leaves
the slot empty, and a second consecutive valid selection on the resulting
slot behaves exactly as with no stored link: the no-magnet-link reply and
no add_torrent call. -/
theorem pending_selection_read_is_destructive
    (env env2 : TransmissionEnv) (l data data2 : List Char)
    (h1 : startsWith downloadTag data = true)
    (h2 : startsWith downloadTag data2 = true) :
    (handle_callback env (some l) data).1 = none ∧
    handle_callback env2 (handle_callback env (some l) data).1 data2 =
      (none, Reply.noMagnetCallback, []) := by
  have hfst : (handle_callback env (some l) data).1 = none := by
    simp [handle_callback, h1]
  refine ⟨hfst, ?_⟩
  rw [hfst]
  simp [handle_callback, h2]

/-- C3 witness: two consecutive valid selections at concrete inputs. -/
theorem pending_selection_read_is_destructive_witness :
    (handle_callback envDisconnected (some ['m']) (downloadTag ++ ['/', 'x'])).1 =
        none ∧
    handle_callback envDisconnected
        (handle_callback envDisconnected (some ['m'])
          (downloadTag ++ ['/', 'x'])).1 (downloadTag ++ ['/', 'y']) =
      (none, Reply.noMagnetCallback, []) :=
  pending_selection_read_is_destructive envDisconnected envDisconnected
    ['m'] (downloadTag ++ ['/', 'x']) (downloadTag ++ ['/', 'y'])
    (by decide) (by decide)

/-- C4: in push mode, with a configured (non-empty) secret token and a
header that does not match it byte for byte (including an absent header),
the webhook handler answers 401 and hands the update to the controller
zero times, for every parse and process outcome; in particular no
add_torrent call can result. -/
theorem webhook_mismatched_secret_rejected
    (s : List Char) (header : Option (List Char)) (parseOk processOk : Bool)
    (hs : s ≠ []) (hm : header ≠ some s) :
    telegram_webhook_handler (some s) header parseOk processOk =
      (HttpStatus.unauthorized401, 0) := by
  have h1 : pyTruthy (some s) = true := by
    cases s with
    | nil => exact absurd rfl hs
    | cons a r => rfl
  have h2 : (header == some s) = false := by
    cases hh : header == some s
    · rfl
    · exact absurd (eq_of_beq hh) hm
  simp [telegram_webhook_handler, h1, h2]

/-- C4 witness: a request with no secret header against a configured
secret is rejected without invoking the controller. -/
theorem webhook_mismatched_secret_rejected_witness :
    telegram_webhook_handler (some ['s']) none true true =
      (HttpStatus.unauthorized401, 0) :=
  webhook_mismatched_secret_rejected ['s'] none true true
    (by decide) (by decide)

/-- C5: the selection payload round-trips the destination path. For every
path with no occurrence of the download: tag, decoding the encoded payload
(the replace call of handle_callback applied to the callback_data built by
handle_message) recovers exactly the original path, and the encoded payload
passes the validity check of handle_callback. The decoder consults only the
payload, not the catalog. -/
theorem payload_roundtrip (path : List Char)
    (h : hasSub downloadTag path = false) :
    decodePayload (encodePayload path) = path ∧
    startsWith downloadTag (encodePayload path) = true := by
  constructor
  · unfold decodePayload encodePayload
    have hne : downloadTag ≠ [] := by decide
    have hdrop : dropLit downloadTag (downloadTag ++ path) = some path :=
      dropLit_append downloadTag path
    have hshape : downloadTag ++ path =
        'd' :: (['o', 'w', 'n', 'l', 'o', 'a', 'd', ':'] ++ path) := by
      rfl
    rw [hshape] at hdrop ⊢
    rw [pyReplace_cons_some downloadTag [] _ _ path hne hdrop]
    rw [pyReplace_no_occurrence downloadTag [] path h]
    rfl
  · unfold startsWith encodePayload
    rw [dropLit_append]
    rfl

/-- C5 witness: a concrete catalog path round-trips. -/
theorem payload_roundtrip_witness :
    decodePayload (encodePayload "/downloads/complete/movies".toList) =
        "/downloads/complete/movies".toList ∧
    startsWith downloadTag (encodePayload "/downloads/complete/movies".toList) =
        true :=
  payload_roundtrip "/downloads/complete/movies".toList (by decide)

/-- C6: add_torrent is total in the embedding (it never raises past its
boundary) and returns true exactly when a client is present and the
underlying RPC returned a torrent object, i.e. the daemon acknowledged the
job; in every other case (no client, or the RPC raised for any reason) it
returns false. -/
theorem add_torrent_true_iff_acknowledged
    (env : TransmissionEnv) (magnet_url download_dir : List Char) :
    add_torrent env magnet_url download_dir = true ↔
      env.clientInitialized = true ∧
      ∃ t, env.addTorrent magnet_url download_dir = RpcResult.ok t := by
  unfold add_torrent
  cases hc : env.clientInitialized
  · simp
  · cases ha : env.addTorrent magnet_url download_dir <;> simp

/-- C7: the gateway reads degrade instead of raising (both embeddings are
total): whenever the client is absent or the session RPC raises,
get_download_dirs returns the static fallback catalog unchanged, and
whenever the client is absent or either RPC raises, get_transmission_status
reports connected = false with a populated error field; in the raising
cases the error field carries the exception text. -/
theorem gateway_reads_degrade_safely (env : TransmissionEnv) :
    ((env.clientInitialized = false ∨ ∃ e, env.getSession = RpcResult.exn e) →
      get_download_dirs env = DEFAULT_DOWNLOAD_DIRS) ∧
    ((env.clientInitialized = false ∨ (∃ e, env.getSession = RpcResult.exn e) ∨
        ∃ e, env.getTorrents = RpcResult.exn e) →
      (get_transmission_status env).connected = false ∧
      (get_transmission_status env).error.isSome = true) ∧
    (∀ e, env.clientInitialized = true → env.getSession = RpcResult.exn e →
      (get_transmission_status env).error = some e) := by
  refine ⟨fun _ => get_download_dirs_const env, ?_, ?_⟩
  · intro h
    unfold get_transmission_status
    cases hc : env.clientInitialized
    · simp
    · cases hs : env.getSession
      · cases ht : env.getTorrents
        · rcases h with h | ⟨e, he⟩ | ⟨e, he⟩
          · rw [hc] at h; cases h
          · rw [hs] at he; cases he
          · rw [ht] at he; cases he
        · simp
      · simp
  · intro e hc hs
    unfold get_transmission_status
    rw [hc, hs]
    simp

/-- C7 witness: with a failed connection, the catalog is the fallback and
the status is disconnected with a populated error. -/
theorem gateway_reads_degrade_safely_witness :
    get_download_dirs envDisconnected = DEFAULT_DOWNLOAD_DIRS ∧
    (get_transmission_status envDisconnected).connected = false ∧
    (get_transmission_status envDisconnected).error.isSome = true :=
  ⟨(gateway_reads_degrade_safely envDisconnected).1 (Or.inl rfl),
   (gateway_reads_degrade_safely envDisconnected).2.1 (Or.inl rfl)⟩

/-- C8: a selection event with a valid download: payload arriving with no
stored magnet link yields the no-magnet-link reply, makes no add_torrent
call, and leaves the slot empty (Idle). -/
theorem valid_selection_without_pending
    (env : TransmissionEnv) (data : List Char)
    (h : startsWith downloadTag data = true) :
    handle_callback env none data = (none, Reply.noMagnetCallback, []) := by
  simp [handle_callback, h]

/-- C8 witness: a concrete valid payload with an empty slot. -/
theorem valid_selection_without_pending_witness :
    handle_callback envDisconnected none (downloadTag ++ ['/', 'x']) =
      (none, Reply.noMagnetCallback, []) :=
  valid_selection_without_pending envDisconnected (downloadTag ++ ['/', 'x'])
    (by decide)

/-- C9: a selection event whose payload lacks the download: tag yields the
invalid-selection reply and changes nothing else: the stored link (any
slot value) is returned untouched and no add_torrent call is made. -/
theorem malformed_selection_is_frame
    (env : TransmissionEnv) (pending : Option (List Char)) (data : List Char)
    (h : startsWith downloadTag data = false) :
    handle_callback env pending data = (pending, Reply.invalidSelection, []) := by
  simp [handle_callback, h]

/-- C9 witness: a concrete malformed payload with a stored link. -/
theorem malformed_selection_is_frame_witness :
    handle_callback envDisconnected (some ['m']) ['x'] =
      (some ['m'], Reply.invalidSelection, []) :=
  malformed_selection_is_frame envDisconnected (some ['m']) ['x'] (by decide)

/-- C10: get_download_dirs is extensionally a constant function: for every
connection state (no client, session RPC raising, or a successful session
read whose download_dir is bound but never used) the returned catalog has
exactly the label/path pairs of DEFAULT_DOWNLOAD_DIRS, in the same order. -/
theorem get_download_dirs_extensionally_default (env : TransmissionEnv) :
    get_download_dirs env = DEFAULT_DOWNLOAD_DIRS :=
  get_download_dirs_const env

end TorrentBot
